import Mathlib

/-!
Verification of the ThreadSafeMsgQueue core: the message entity and its
ordering (include/ThreadSafeMsgQueue/Msg.h), the bounded priority queue
(MsgQueue.h), the type-erased subscriber callback
(include/ThreadSafeMsgQueue/SubCallback.h), and the publish/subscribe router
(include/ThreadSafeMsgQueue/PubSub.h).

Modelling conventions.  A `BaseMsgPtr` always points at a concrete
`Msg<T>` object, so a message is modelled as one structure holding the
base-class fields (`priority`, `timestamp`, `msg_id_`) together with the
dynamic payload type (`ty_tag`, standing for `typeid(T)`) and the payload
value (`content`, abstracted to an integer).  The process-wide message-id
counter and the wall clock are ambient inputs of the C++ code; they appear
here as explicit arguments (`msg_id`, `now`).  Atomic `uint64_t` counters
are modelled as `Nat`: no operation modelled here drives them anywhere near
wrap-around.  The `std::priority_queue` member is modelled by its multiset
of elements (a list), with `top`/`pop` extracting a maximal element under
the element comparator; locks disappear because each public operation is one
critical section, i.e. one atomic state transition.
-/

/-- A message as seen through a `BaseMsgPtr`: the `BaseMsg` fields of
`include/ThreadSafeMsgQueue/Msg.h` plus the dynamic payload type tag and the
payload value of the pointed-to `Msg<T>`. -/
structure BaseMsg where
  priority : Int
  timestamp : Int
  msg_id : Nat
  ty_tag : Nat
  content : Int
deriving DecidableEq, Repr

/-- `BaseMsg::setTimestamp` (Msg.h line 65). -/
def BaseMsg.setTimestamp (m : BaseMsg) (t : Int) : BaseMsg :=
  { m with timestamp := t }

/-- `BaseMsg::operator<` (Msg.h lines 55-62): priority first, then newer
timestamps compare smaller, then larger message ids compare smaller. -/
def BaseMsg.lt (a b : BaseMsg) : Bool :=
  if a.priority ≠ b.priority then decide (a.priority < b.priority)
  else if a.timestamp ≠ b.timestamp then decide (b.timestamp < a.timestamp)
  else decide (b.msg_id < a.msg_id)

/-- The dequeue order stated by the spec: A is returned before B iff A has
strictly higher priority, or equal priority and strictly smaller timestamp,
or equal priority and timestamp and smaller sequence id. -/
def ranksBefore (a b : BaseMsg) : Prop :=
  b.priority < a.priority
    ∨ (a.priority = b.priority ∧ a.timestamp < b.timestamp)
    ∨ (a.priority = b.priority ∧ a.timestamp = b.timestamp ∧ a.msg_id < b.msg_id)

instance (a b : BaseMsg) : Decidable (ranksBefore a b) := by
  unfold ranksBefore; infer_instance

/-- The spec order and the code comparator agree: A ranks before B exactly
when the comparator puts B strictly below A. -/
theorem ranksBefore_iff_lt (a b : BaseMsg) : ranksBefore a b ↔ BaseMsg.lt b a = true := by
  unfold ranksBefore BaseMsg.lt
  by_cases hp : b.priority = a.priority <;> by_cases ht : b.timestamp = a.timestamp <;>
    simp [hp, ht] <;> omega

/-- `std::priority_queue::top`/`pop` combined: extract a maximal element
under `BaseMsg.lt` from the stored multiset, returning it together with the
remaining elements.  Returns `none` on an empty container. -/
def popMax : List BaseMsg → Option (BaseMsg × List BaseMsg)
  | [] => none
  | x :: xs =>
    match popMax xs with
    | none => some (x, [])
    | some (m, rest) =>
      if BaseMsg.lt x m then some (m, x :: rest) else some (x, m :: rest)

theorem popMax_eq_none {l : List BaseMsg} : popMax l = none ↔ l = [] := by
  cases l with
  | nil => simp [popMax]
  | cons x xs =>
    simp only [popMax]
    rcases h : popMax xs with - | ⟨m, rest⟩ <;> simp <;> split <;> simp

theorem ltMsg_iff (a b : BaseMsg) :
    BaseMsg.lt a b = true ↔
      (a.priority < b.priority
        ∨ (a.priority = b.priority ∧ b.timestamp < a.timestamp)
        ∨ (a.priority = b.priority ∧ a.timestamp = b.timestamp ∧ b.msg_id < a.msg_id)) := by
  unfold BaseMsg.lt
  by_cases hp : a.priority = b.priority <;> by_cases ht : a.timestamp = b.timestamp <;>
    simp [hp, ht] <;> omega

/-- The comparator is asymmetric. -/
theorem ltMsg_asymm {a b : BaseMsg} (h : BaseMsg.lt a b = true) :
    BaseMsg.lt b a = false := by
  rw [← Bool.not_eq_true, ltMsg_iff]
  rw [ltMsg_iff] at h
  omega

/-- Messages with distinct ids are totally ordered by the comparator. -/
theorem ltMsg_total_of_ne {a b : BaseMsg} (hid : a.msg_id ≠ b.msg_id)
    (h : BaseMsg.lt a b = false) : BaseMsg.lt b a = true := by
  rw [← Bool.not_eq_true, ltMsg_iff] at h
  rw [ltMsg_iff]
  omega

/-- Negative transitivity: the comparator is a strict weak order. -/
theorem ltMsg_negtrans {a b c : BaseMsg} (h1 : BaseMsg.lt a b = false)
    (h2 : BaseMsg.lt b c = false) : BaseMsg.lt a c = false := by
  rw [← Bool.not_eq_true, ltMsg_iff] at h1 h2 ⊢
  omega

theorem popMax_perm {l rest : List BaseMsg} {m : BaseMsg}
    (h : popMax l = some (m, rest)) : l.Perm (m :: rest) := by
  induction l generalizing m rest with
  | nil => simp [popMax] at h
  | cons x xs ih =>
    simp only [popMax] at h
    rcases hx : popMax xs with - | ⟨m', rest'⟩
    · rw [hx] at h
      simp at h
      obtain ⟨rfl, rfl⟩ := h
      rw [popMax_eq_none.mp hx]
    · rw [hx] at h
      have hperm : xs.Perm (m' :: rest') := ih hx
      dsimp only at h
      by_cases hcmp : BaseMsg.lt x m' = true
      · rw [if_pos hcmp] at h
        simp at h
        obtain ⟨rfl, rfl⟩ := h
        refine (hperm.cons x).trans ?_
        exact List.Perm.swap _ _ _
      · rw [if_neg hcmp] at h
        simp at h
        obtain ⟨rfl, rfl⟩ := h
        exact hperm.cons x

theorem popMax_max {l rest : List BaseMsg} {m : BaseMsg}
    (h : popMax l = some (m, rest)) : ∀ x ∈ rest, BaseMsg.lt m x = false := by
  induction l generalizing m rest with
  | nil => simp [popMax] at h
  | cons x xs ih =>
    simp only [popMax] at h
    rcases hx : popMax xs with - | ⟨m', rest'⟩
    · rw [hx] at h
      simp at h
      obtain ⟨rfl, rfl⟩ := h
      simp
    · rw [hx] at h
      dsimp only at h
      by_cases hcmp : BaseMsg.lt x m' = true
      · rw [if_pos hcmp] at h
        simp at h
        obtain ⟨rfl, rfl⟩ := h
        intro y hy
        rcases List.mem_cons.mp hy with rfl | hy
        · exact ltMsg_asymm hcmp
        · exact ih hx y hy
      · rw [if_neg hcmp] at h
        simp at h
        obtain ⟨rfl, rfl⟩ := h
        intro y hy
        rcases List.mem_cons.mp hy with rfl | hy
        · simpa using hcmp
        · exact ltMsg_negtrans (by simpa using hcmp) (ih hx y hy)

theorem popMax_length {l rest : List BaseMsg} {m : BaseMsg}
    (h : popMax l = some (m, rest)) : rest.length + 1 = l.length := by
  simpa using (popMax_perm h).length_eq.symm

/-- The statistics block of `MsgQueue` (MsgQueue.h lines 16-45); atomic
`uint64_t` counters modelled as `Nat`. -/
structure Statistics where
  total_enqueued : Nat
  total_dequeued : Nat
  current_size : Nat
  peak_size : Nat
  total_wait_time_us : Nat
  wait_count : Nat
deriving DecidableEq, Repr

def Statistics.init : Statistics :=
  { total_enqueued := 0, total_dequeued := 0, current_size := 0,
    peak_size := 0, total_wait_time_us := 0, wait_count := 0 }

/-- `MsgQueue` state: the priority-queue contents (as their multiset of
elements), the capacity bound `max_size_`, and the statistics block. -/
structure MsgQueue where
  msg_queue : List BaseMsg
  max_size : Nat
  stats : Statistics
deriving DecidableEq, Repr

/-- The `MsgQueue(size_t max_size)` constructor: empty queue, zeroed stats. -/
def mkMsgQueue (max_size : Nat) : MsgQueue :=
  { msg_queue := [], max_size := max_size, stats := Statistics.init }

/-- `MsgQueue::enqueue` (MsgQueue.h lines 58-86): reject null, reject at
capacity, otherwise stamp the message with the current time, push it and
update the statistics (peak via the compare-exchange loop, i.e. a max). -/
def MsgQueue.enqueue (q : MsgQueue) (msg : Option BaseMsg) (now : Int) :
    Bool × MsgQueue :=
  match msg with
  | none => (false, q)
  | some m =>
    if q.max_size ≤ q.msg_queue.length then (false, q)
    else
      let sz := q.stats.current_size + 1
      (true,
        { q with
          msg_queue := q.msg_queue ++ [m.setTimestamp now],
          stats := { q.stats with
            total_enqueued := q.stats.total_enqueued + 1,
            current_size := sz,
            peak_size := max q.stats.peak_size sz } })

/-- The loop body of `MsgQueue::enqueue_batch` (MsgQueue.h lines 98-106):
push messages carrying one shared timestamp until the first null entry or
until the container reaches capacity; count the pushes. -/
def enqueueBatchLoop (max_size : Nat) (now : Int) (acc : List BaseMsg) :
    List (Option BaseMsg) → List BaseMsg × Nat
  | [] => (acc, 0)
  | none :: _ => (acc, 0)
  | some m :: rest =>
    if max_size ≤ acc.length then (acc, 0)
    else
      let r := enqueueBatchLoop max_size now (acc ++ [m.setTimestamp now]) rest
      (r.1, r.2 + 1)

/-- `MsgQueue::enqueue_batch` (MsgQueue.h lines 89-122). -/
def MsgQueue.enqueue_batch (q : MsgQueue) (messages : List (Option BaseMsg))
    (now : Int) : Nat × MsgQueue :=
  if messages = [] then (0, q)
  else
    let r := enqueueBatchLoop q.max_size now q.msg_queue messages
    if 0 < r.2 then
      let sz := q.stats.current_size + r.2
      (r.2,
        { q with
          msg_queue := r.1,
          stats := { q.stats with
            total_enqueued := q.stats.total_enqueued + r.2,
            current_size := sz,
            peak_size := max q.stats.peak_size sz } })
    else (r.2, { q with msg_queue := r.1 })

/-- `MsgQueue::dequeue` (MsgQueue.h lines 125-139): return null on an empty
queue, otherwise pop the top element and update the statistics. -/
def MsgQueue.dequeue (q : MsgQueue) : Option BaseMsg × MsgQueue :=
  match popMax q.msg_queue with
  | none => (none, q)
  | some (m, rest) =>
    (some m,
      { q with
        msg_queue := rest,
        stats := { q.stats with
          total_dequeued := q.stats.total_dequeued + 1,
          current_size := q.stats.current_size - 1 } })

/-- `MsgQueue::size` (MsgQueue.h lines 197-200). -/
def MsgQueue.size (q : MsgQueue) : Nat := q.msg_queue.length

/-- `MsgQueue::clear` (MsgQueue.h lines 207-213): pop everything and zero
`current_size`; no other statistics field is touched. -/
def MsgQueue.clear (q : MsgQueue) : MsgQueue :=
  { q with msg_queue := [], stats := { q.stats with current_size := 0 } }

/-- `MsgQueue::resetStatistics` (MsgQueue.h lines 220-226): zero the
enqueue/dequeue/wait counters and re-seed `peak_size` from `current_size`,
which itself is left alone. -/
def MsgQueue.resetStatistics (q : MsgQueue) : MsgQueue :=
  { q with stats :=
    { total_enqueued := 0,
      total_dequeued := 0,
      current_size := q.stats.current_size,
      peak_size := q.stats.current_size,
      total_wait_time_us := 0,
      wait_count := 0 } }

theorem dequeue_some_popMax {q : MsgQueue} {m : BaseMsg} {q' : MsgQueue}
    (h : q.dequeue = (some m, q')) :
    popMax q.msg_queue = some (m, q'.msg_queue) := by
  unfold MsgQueue.dequeue at h
  rcases hp : popMax q.msg_queue with - | ⟨m', rest⟩ <;> rw [hp] at h <;>
    simp at h
  obtain ⟨⟨rfl⟩, rfl⟩ := h
  rfl

theorem dequeue_some_length {q : MsgQueue} {m : BaseMsg} {q' : MsgQueue}
    (h : q.dequeue = (some m, q')) :
    q'.msg_queue.length + 1 = q.msg_queue.length :=
  popMax_length (dequeue_some_popMax h)

/-- Repeatedly calling `dequeue` until it reports an empty queue, collecting
the returned messages in order. -/
def drainQueue (q : MsgQueue) : List BaseMsg :=
  match h : q.dequeue with
  | (none, _) => []
  | (some m, q') => m :: drainQueue q'
termination_by q.msg_queue.length
decreasing_by
  have := dequeue_some_length h
  omega

theorem dequeue_none {q : MsgQueue} {q' : MsgQueue}
    (h : q.dequeue = (none, q')) : q.msg_queue = [] := by
  unfold MsgQueue.dequeue at h
  rcases hp : popMax q.msg_queue with - | ⟨m', rest⟩ <;> rw [hp] at h <;>
    simp at h
  exact popMax_eq_none.mp hp

theorem drainQueue_perm_aux :
    ∀ (n : Nat) (q : MsgQueue), q.msg_queue.length = n →
      (drainQueue q).Perm q.msg_queue := by
  intro n
  induction n using Nat.strong_induction_on with
  | _ n ih =>
    intro q hq
    rw [drainQueue]
    split
    · rename_i heq
      rw [dequeue_none heq]
    · rename_i m q' heq
      have hlen := dequeue_some_length heq
      have hrec := ih q'.msg_queue.length (by omega) q' rfl
      have hpop := popMax_perm (dequeue_some_popMax heq)
      exact (hrec.cons m).trans hpop.symm

theorem drainQueue_perm (q : MsgQueue) : (drainQueue q).Perm q.msg_queue :=
  drainQueue_perm_aux q.msg_queue.length q rfl

theorem drainQueue_pairwise_aux :
    ∀ (n : Nat) (q : MsgQueue), q.msg_queue.length = n →
      (q.msg_queue.map BaseMsg.msg_id).Nodup →
      (drainQueue q).Pairwise ranksBefore := by
  intro n
  induction n using Nat.strong_induction_on with
  | _ n ih =>
    intro q hq hnd
    rw [drainQueue]
    split
    · exact List.Pairwise.nil
    · rename_i m q' heq
      have hlen := dequeue_some_length heq
      have hpop := dequeue_some_popMax heq
      have hperm : q.msg_queue.Perm (m :: q'.msg_queue) := popMax_perm hpop
      have hnd' : ((m :: q'.msg_queue).map BaseMsg.msg_id).Nodup :=
        (hperm.map BaseMsg.msg_id).nodup_iff.mp hnd
      refine List.Pairwise.cons ?_ ?_
      · intro y hy
        have hymem : y ∈ q'.msg_queue :=
          (drainQueue_perm q').mem_iff.mp hy
        have hmax : BaseMsg.lt m y = false := popMax_max hpop y hymem
        have hne : m.msg_id ≠ y.msg_id := by
          simp only [List.map_cons, List.nodup_cons] at hnd'
          intro hcontra
          exact hnd'.1 (hcontra ▸ List.mem_map_of_mem BaseMsg.msg_id hymem)
        rw [ranksBefore_iff_lt]
        exact ltMsg_total_of_ne hne hmax
      · refine ih q'.msg_queue.length (by omega) q' rfl ?_
        simp only [List.map_cons, List.nodup_cons] at hnd'
        exact hnd'.2

theorem drainQueue_pairwise (q : MsgQueue)
    (hnd : (q.msg_queue.map BaseMsg.msg_id).Nodup) :
    (drainQueue q).Pairwise ranksBefore :=
  drainQueue_pairwise_aux q.msg_queue.length q rfl hnd

/-- C1: every drain of the queue by repeated `dequeue` returns the stored
messages (a permutation of the contents) in the spec's total order —
strictly higher priority first, then smaller timestamp, then smaller
sequence id — and, equivalently, each single `dequeue` returns a message
that ranks before every message still stored.  The sequence-id distinctness
hypothesis reflects the process-wide unique id counter of Msg.h. -/
theorem c1_dequeue_total_order (q : MsgQueue)
    (hnd : (q.msg_queue.map BaseMsg.msg_id).Nodup) :
    (drainQueue q).Perm q.msg_queue
    ∧ (drainQueue q).Pairwise ranksBefore
    ∧ (∀ (m : BaseMsg) (q' : MsgQueue), q.dequeue = (some m, q') →
        ∀ x ∈ q'.msg_queue, ranksBefore m x) := by
  refine ⟨drainQueue_perm q, drainQueue_pairwise q hnd, ?_⟩
  intro m q' heq x hx
  have hpop := dequeue_some_popMax heq
  have hmax : BaseMsg.lt m x = false := popMax_max hpop x hx
  have hperm := popMax_perm hpop
  have hnd' : ((m :: q'.msg_queue).map BaseMsg.msg_id).Nodup :=
    (hperm.map BaseMsg.msg_id).nodup_iff.mp hnd
  have hne : m.msg_id ≠ x.msg_id := by
    simp only [List.map_cons, List.nodup_cons] at hnd'
    intro hcontra
    exact hnd'.1 (hcontra ▸ List.mem_map_of_mem BaseMsg.msg_id hx)
  rw [ranksBefore_iff_lt]
  exact ltMsg_total_of_ne hne hmax

/-- A concrete three-message queue used to instantiate `c1_dequeue_total_order`. -/
def qC1 : MsgQueue :=
  { msg_queue :=
      [ { priority := 1, timestamp := 10, msg_id := 0, ty_tag := 0, content := 100 },
        { priority := 5, timestamp := 11, msg_id := 1, ty_tag := 0, content := 200 },
        { priority := 3, timestamp := 12, msg_id := 2, ty_tag := 0, content := 300 } ],
    max_size := 16,
    stats := Statistics.init }

theorem c1_witness :
    (drainQueue qC1).Perm qC1.msg_queue
    ∧ (drainQueue qC1).Pairwise ranksBefore
    ∧ (∀ (m : BaseMsg) (q' : MsgQueue), qC1.dequeue = (some m, q') →
        ∀ x ∈ q'.msg_queue, ranksBefore m x) :=
  c1_dequeue_total_order qC1 (by decide)

theorem enqueueBatchLoop_spec (max_size : Nat) (now : Int) :
    ∀ (msgs : List (Option BaseMsg)) (acc : List BaseMsg),
      (enqueueBatchLoop max_size now acc msgs).2 ≤ msgs.length
      ∧ (enqueueBatchLoop max_size now acc msgs).1
          = acc ++ ((msgs.take (enqueueBatchLoop max_size now acc msgs).2).filterMap
              id).map (fun m => m.setTimestamp now)
      ∧ (enqueueBatchLoop max_size now acc msgs).1.length
          = acc.length + (enqueueBatchLoop max_size now acc msgs).2
      ∧ ((enqueueBatchLoop max_size now acc msgs).2 < msgs.length →
          msgs[(enqueueBatchLoop max_size now acc msgs).2]? = some none
          ∨ max_size ≤ acc.length + (enqueueBatchLoop max_size now acc msgs).2) := by
  intro msgs
  induction msgs with
  | nil => intro acc; simp [enqueueBatchLoop]
  | cons hd rest ih =>
    intro acc
    match hd with
    | none => simp [enqueueBatchLoop]
    | some m =>
      by_cases hcap : max_size ≤ acc.length
      · simp [enqueueBatchLoop, hcap]
      · have ihx := ih (acc ++ [m.setTimestamp now])
        simp only [enqueueBatchLoop, if_neg hcap]
        obtain ⟨h1, h2, h3, h4⟩ := ihx
        refine ⟨by simpa using Nat.add_le_add_right h1 1, ?_, ?_, ?_⟩
        · simp only [List.take_succ_cons, List.filterMap_cons, List.map_cons]
          rw [h2]
          simp
        · simp only [h3]
          simp [Nat.add_assoc, Nat.add_comm 1]
        · intro hlt
          have hlt' : (enqueueBatchLoop max_size now (acc ++ [m.setTimestamp now]) rest).2
              < rest.length := by simpa using hlt
          rcases h4 hlt' with hnull | hfull
          · left
            simpa using hnull
          · right
            simp only [List.length_append, List.length_cons, List.length_nil] at hfull ⊢
            omega

theorem enqueue_batch_proj (q : MsgQueue) (msgs : List (Option BaseMsg))
    (now : Int) (h : msgs ≠ []) :
    (q.enqueue_batch msgs now).1
        = (enqueueBatchLoop q.max_size now q.msg_queue msgs).2
    ∧ (q.enqueue_batch msgs now).2.msg_queue
        = (enqueueBatchLoop q.max_size now q.msg_queue msgs).1
    ∧ (q.enqueue_batch msgs now).2.max_size = q.max_size := by
  unfold MsgQueue.enqueue_batch
  rw [if_neg h]
  by_cases h2 : 0 < (enqueueBatchLoop q.max_size now q.msg_queue msgs).2 <;>
    simp [h2]

/-- C5: `enqueue_batch` stamps every accepted message with the one shared
timestamp taken at batch start, stops at the first null entry or at
capacity (accepting nothing after the stop point), returns exactly the
number of messages inserted, and returns 0 on an empty input. -/
theorem c5_enqueue_batch_spec (q : MsgQueue) (msgs : List (Option BaseMsg))
    (now : Int) :
    (msgs = [] → q.enqueue_batch msgs now = (0, q))
    ∧ (q.enqueue_batch msgs now).1 ≤ msgs.length
    ∧ (q.enqueue_batch msgs now).2.msg_queue
        = q.msg_queue ++ ((msgs.take (q.enqueue_batch msgs now).1).filterMap
            id).map (fun m => m.setTimestamp now)
    ∧ (q.enqueue_batch msgs now).2.msg_queue.length
        = q.msg_queue.length + (q.enqueue_batch msgs now).1
    ∧ (∀ m ∈ (q.enqueue_batch msgs now).2.msg_queue.drop q.msg_queue.length,
        m.timestamp = now)
    ∧ ((q.enqueue_batch msgs now).1 < msgs.length →
        msgs[(q.enqueue_batch msgs now).1]? = some none
        ∨ q.max_size ≤ q.msg_queue.length + (q.enqueue_batch msgs now).1) := by
  by_cases hmsgs : msgs = []
  · subst hmsgs
    simp [MsgQueue.enqueue_batch]
  · obtain ⟨hp1, hp2, -⟩ := enqueue_batch_proj q msgs now hmsgs
    obtain ⟨h1, h2, h3, h4⟩ := enqueueBatchLoop_spec q.max_size now msgs q.msg_queue
    refine ⟨fun hc => absurd hc hmsgs, ?_, ?_, ?_, ?_, ?_⟩
    · rw [hp1]; exact h1
    · rw [hp1, hp2]; exact h2
    · rw [hp1, hp2]; omega
    · intro m hm
      rw [hp2, h2, List.drop_left] at hm
      obtain ⟨a, -, rfl⟩ := List.mem_map.mp hm
      rfl
    · rw [hp1]; exact h4

/-- The operations a client can interleave on one queue (the blocking and
batch dequeues remove elements just like `dequeue`, so the three below cover
the size behaviour). -/
inductive QueueOp where
  | enq (msg : Option BaseMsg) (now : Int)
  | enqBatch (msgs : List (Option BaseMsg)) (now : Int)
  | deq
deriving DecidableEq, Repr

def runQueueOps (q : MsgQueue) : List QueueOp → MsgQueue
  | [] => q
  | QueueOp.enq m n :: rest => runQueueOps (q.enqueue m n).2 rest
  | QueueOp.enqBatch ms n :: rest => runQueueOps (q.enqueue_batch ms n).2 rest
  | QueueOp.deq :: rest => runQueueOps q.dequeue.2 rest

theorem enqueue_full (q : MsgQueue) (msg : Option BaseMsg) (now : Int)
    (hfull : q.max_size ≤ q.msg_queue.length) :
    q.enqueue msg now = (false, q) := by
  cases msg with
  | none => rfl
  | some m => simp [MsgQueue.enqueue, hfull]

theorem enqueue_size_le (q : MsgQueue) (msg : Option BaseMsg) (now : Int)
    (h : q.msg_queue.length ≤ q.max_size) :
    (q.enqueue msg now).2.msg_queue.length ≤ q.max_size
    ∧ (q.enqueue msg now).2.max_size = q.max_size := by
  cases msg with
  | none => exact ⟨h, rfl⟩
  | some m =>
    by_cases hcap : q.max_size ≤ q.msg_queue.length
    · rw [enqueue_full q (some m) now hcap]
      exact ⟨h, rfl⟩
    · simp only [MsgQueue.enqueue, if_neg hcap]
      refine ⟨by simp; omega, by simp⟩

theorem enqueueBatchLoop_len_le (max_size : Nat) (now : Int) :
    ∀ (msgs : List (Option BaseMsg)) (acc : List BaseMsg),
      acc.length ≤ max_size →
      (enqueueBatchLoop max_size now acc msgs).1.length ≤ max_size := by
  intro msgs
  induction msgs with
  | nil => intro acc h; simpa [enqueueBatchLoop] using h
  | cons hd rest ih =>
    intro acc h
    match hd with
    | none => simpa [enqueueBatchLoop] using h
    | some m =>
      by_cases hcap : max_size ≤ acc.length
      · simpa [enqueueBatchLoop, hcap] using h
      · simp only [enqueueBatchLoop, if_neg hcap]
        exact ih (acc ++ [m.setTimestamp now]) (by simp; omega)

theorem enqueue_batch_size_le (q : MsgQueue) (msgs : List (Option BaseMsg))
    (now : Int) (h : q.msg_queue.length ≤ q.max_size) :
    (q.enqueue_batch msgs now).2.msg_queue.length ≤ q.max_size
    ∧ (q.enqueue_batch msgs now).2.max_size = q.max_size := by
  by_cases hmsgs : msgs = []
  · subst hmsgs; exact ⟨by simpa [MsgQueue.enqueue_batch] using h, rfl⟩
  · obtain ⟨-, hp2, hp3⟩ := enqueue_batch_proj q msgs now hmsgs
    exact ⟨hp2 ▸ enqueueBatchLoop_len_le q.max_size now msgs q.msg_queue h, hp3⟩

theorem dequeue_size_le (q : MsgQueue) (h : q.msg_queue.length ≤ q.max_size) :
    q.dequeue.2.msg_queue.length ≤ q.max_size
    ∧ q.dequeue.2.max_size = q.max_size := by
  unfold MsgQueue.dequeue
  rcases hp : popMax q.msg_queue with - | ⟨m, rest⟩
  · simpa using h
  · have := popMax_length hp
    simp
    omega

theorem runQueueOps_size_le (ops : List QueueOp) :
    ∀ q : MsgQueue, q.msg_queue.length ≤ q.max_size →
      (runQueueOps q ops).msg_queue.length ≤ q.max_size
      ∧ (runQueueOps q ops).max_size = q.max_size := by
  induction ops with
  | nil => intro q h; exact ⟨h, rfl⟩
  | cons op rest ih =>
    intro q h
    match op with
    | QueueOp.enq m n =>
      obtain ⟨h1, h2⟩ := enqueue_size_le q m n h
      obtain ⟨h3, h4⟩ := ih (q.enqueue m n).2 (h2 ▸ h1)
      exact ⟨by rw [← h2]; exact h2 ▸ h3, by rw [← h2]; exact h4⟩
    | QueueOp.enqBatch ms n =>
      obtain ⟨h1, h2⟩ := enqueue_batch_size_le q ms n h
      obtain ⟨h3, h4⟩ := ih (q.enqueue_batch ms n).2 (h2 ▸ h1)
      exact ⟨by rw [← h2]; exact h2 ▸ h3, by rw [← h2]; exact h4⟩
    | QueueOp.deq =>
      obtain ⟨h1, h2⟩ := dequeue_size_le q h
      obtain ⟨h3, h4⟩ := ih q.dequeue.2 (h2 ▸ h1)
      exact ⟨by rw [← h2]; exact h2 ▸ h3, by rw [← h2]; exact h4⟩

/-- C2: `enqueue` on a null message or a full queue returns false and leaves
the whole queue state — contents, size and every statistics counter —
untouched; starting from a freshly constructed queue of capacity N, any
interleaving of enqueue / enqueue_batch / dequeue keeps `size() ≤ N`; and an
enqueue attempted at `size() == N` fails leaving the size at N. -/
theorem c2_capacity (N : Nat) (q : MsgQueue) (msg : Option BaseMsg)
    (now : Int) (ops : List QueueOp) :
    ((msg = none ∨ q.max_size ≤ q.msg_queue.length) →
        q.enqueue msg now = (false, q))
    ∧ (runQueueOps (mkMsgQueue N) ops).size ≤ N
    ∧ (q.max_size = N → q.size = N →
        (q.enqueue msg now).1 = false ∧ (q.enqueue msg now).2.size = N) := by
  refine ⟨?_, ?_, ?_⟩
  · rintro (rfl | hfull)
    · rfl
    · exact enqueue_full q msg now hfull
  · simpa [mkMsgQueue] using
      (runQueueOps_size_le ops (mkMsgQueue N) (by simp [mkMsgQueue])).1
  · intro hmax hsz
    have hfull : q.max_size ≤ q.msg_queue.length := by
      unfold MsgQueue.size at hsz; omega
    rw [enqueue_full q msg now hfull]
    exact ⟨rfl, hsz⟩

/-- A concrete message for witness instantiations. -/
def msgW : BaseMsg :=
  { priority := 2, timestamp := 0, msg_id := 3, ty_tag := 0, content := 1 }

theorem c2_witness :
    (mkMsgQueue 0).enqueue (some msgW) 7 = (false, mkMsgQueue 0)
    ∧ (runQueueOps (mkMsgQueue 0) [QueueOp.enq (some msgW) 7]).size ≤ 0
    ∧ ((mkMsgQueue 0).enqueue (some msgW) 7).1 = false
    ∧ ((mkMsgQueue 0).enqueue (some msgW) 7).2.size = 0 :=
  ⟨(c2_capacity 0 (mkMsgQueue 0) (some msgW) 7 []).1 (Or.inr (by decide)),
   (c2_capacity 0 (mkMsgQueue 0) (some msgW) 7
      [QueueOp.enq (some msgW) 7]).2.1,
   (c2_capacity 0 (mkMsgQueue 0) (some msgW) 7 []).2.2 rfl rfl⟩

theorem c5_witness :
    (mkMsgQueue 5).enqueue_batch [] 9 = (0, mkMsgQueue 5)
    ∧ ((mkMsgQueue 5).enqueue_batch [some msgW, none] 9).1
        ≤ ([some msgW, none] : List (Option BaseMsg)).length
    ∧ ((mkMsgQueue 5).enqueue_batch [some msgW, none] 9).2.msg_queue
        = (mkMsgQueue 5).msg_queue
          ++ ((([some msgW, none] : List (Option BaseMsg)).take
              ((mkMsgQueue 5).enqueue_batch [some msgW, none] 9).1).filterMap
              id).map (fun m => m.setTimestamp 9)
    ∧ ((mkMsgQueue 5).enqueue_batch [some msgW, none] 9).2.msg_queue.length
        = (mkMsgQueue 5).msg_queue.length
          + ((mkMsgQueue 5).enqueue_batch [some msgW, none] 9).1
    ∧ (∀ m ∈ ((mkMsgQueue 5).enqueue_batch
          [some msgW, none] 9).2.msg_queue.drop
          (mkMsgQueue 5).msg_queue.length, m.timestamp = 9)
    ∧ (([some msgW, none] :
            List (Option BaseMsg))[((mkMsgQueue 5).enqueue_batch
              [some msgW, none] 9).1]? = some none
        ∨ (mkMsgQueue 5).max_size
            ≤ (mkMsgQueue 5).msg_queue.length
              + ((mkMsgQueue 5).enqueue_batch [some msgW, none] 9).1) :=
  ⟨(c5_enqueue_batch_spec (mkMsgQueue 5) [] 9).1 rfl,
   (c5_enqueue_batch_spec (mkMsgQueue 5) [some msgW, none] 9).2.1,
   (c5_enqueue_batch_spec (mkMsgQueue 5) [some msgW, none] 9).2.2.1,
   (c5_enqueue_batch_spec (mkMsgQueue 5) [some msgW, none] 9).2.2.2.1,
   (c5_enqueue_batch_spec (mkMsgQueue 5) [some msgW, none] 9).2.2.2.2.1,
   (c5_enqueue_batch_spec (mkMsgQueue 5)
      [some msgW, none] 9).2.2.2.2.2 (by decide)⟩

/-- C7: `clear` empties the stored messages and zeroes `current_size`; the
historical counters `total_enqueued`, `total_dequeued`, `peak_size`,
`total_wait_time_us` and `wait_count` are untouched. -/
theorem c7_clear_frame (q : MsgQueue) :
    q.clear.msg_queue = []
    ∧ q.clear.stats.current_size = 0
    ∧ q.clear.stats.total_enqueued = q.stats.total_enqueued
    ∧ q.clear.stats.total_dequeued = q.stats.total_dequeued
    ∧ q.clear.stats.peak_size = q.stats.peak_size
    ∧ q.clear.stats.total_wait_time_us = q.stats.total_wait_time_us
    ∧ q.clear.stats.wait_count = q.stats.wait_count :=
  ⟨rfl, rfl, rfl, rfl, rfl, rfl, rfl⟩

/-- C8: `resetStatistics` zeroes the enqueue/dequeue/wait counters, re-seeds
`peak_size` with the current size (not zero), and leaves `current_size` and
the stored messages untouched. -/
theorem c8_reset_statistics (q : MsgQueue) :
    q.resetStatistics.stats.total_enqueued = 0
    ∧ q.resetStatistics.stats.total_dequeued = 0
    ∧ q.resetStatistics.stats.total_wait_time_us = 0
    ∧ q.resetStatistics.stats.wait_count = 0
    ∧ q.resetStatistics.stats.peak_size = q.stats.current_size
    ∧ q.resetStatistics.stats.current_size = q.stats.current_size
    ∧ q.resetStatistics.msg_queue = q.msg_queue :=
  ⟨rfl, rfl, rfl, rfl, rfl, rfl, rfl⟩

/-- The outcome of one user-callback invocation: it either returns normally
or raises (any exception, caught by the dispatcher's `catch (...)`). -/
inductive CbOutcome where
  | ok
  | exn
deriving DecidableEq, Repr

/-- `SubCallback<T>::call` (SubCallback.h lines 64-77).  `ty_t` stands for
the payload type `T` the dispatcher was built for; the
`dynamic_pointer_cast` succeeds exactly when the message's dynamic payload
type equals `T`.  The result pairs the returned bool with the number of
times the user callback `f` was invoked during the call; the bool return
(rather than a propagated exception) models the `catch (...)` that converts
a callback failure into `false`. -/
def SubCallback.call (ty_t : Nat) (f : BaseMsg → CbOutcome) (msg : BaseMsg) :
    Bool × Nat :=
  if msg.ty_tag = ty_t then
    match f msg with
    | CbOutcome.ok => (true, 1)
    | CbOutcome.exn => (false, 1)
  else (false, 0)

/-- C3: a dispatcher built for payload type T returns false and never calls
the user callback on a message of a different payload type; on a message of
type T it calls the callback exactly once, returning true when the callback
completes normally and false — with the failure contained, the call still
returning a plain bool — when it raises. -/
theorem c3_dispatch (ty_t : Nat) (f : BaseMsg → CbOutcome) (msg : BaseMsg) :
    (msg.ty_tag ≠ ty_t → SubCallback.call ty_t f msg = (false, 0))
    ∧ (msg.ty_tag = ty_t → f msg = CbOutcome.ok →
        SubCallback.call ty_t f msg = (true, 1))
    ∧ (msg.ty_tag = ty_t → f msg = CbOutcome.exn →
        SubCallback.call ty_t f msg = (false, 1)) := by
  refine ⟨?_, ?_, ?_⟩
  · intro hne
    simp [SubCallback.call, hne]
  · intro heq hok
    simp [SubCallback.call, heq, hok]
  · intro heq hexn
    simp [SubCallback.call, heq, hexn]

theorem c3_witness :
    SubCallback.call 1 (fun _ => CbOutcome.ok) msgW = (false, 0)
    ∧ SubCallback.call 0 (fun _ => CbOutcome.ok) msgW = (true, 1)
    ∧ SubCallback.call 0 (fun _ => CbOutcome.exn) msgW = (false, 1) :=
  ⟨(c3_dispatch 1 (fun _ => CbOutcome.ok) msgW).1 (by decide),
   (c3_dispatch 0 (fun _ => CbOutcome.ok) msgW).2.1 (by decide) rfl,
   (c3_dispatch 0 (fun _ => CbOutcome.exn) msgW).2.2 (by decide) rfl⟩

/-- Per-topic statistics of the router (PubSub.h lines 40-64). -/
structure TopicStatistics where
  messages_published : Nat
  messages_processed : Nat
  active_subscribers : Nat
  total_processing_time_us : Nat
deriving DecidableEq, Repr

def TopicStatistics.init : TopicStatistics :=
  { messages_published := 0, messages_processed := 0,
    active_subscribers := 0, total_processing_time_us := 0 }

/-- Lookup in an `std::unordered_map` modelled as an association list
(first binding of the key wins). -/
def alistFind {β : Type} (k : String) : List (String × β) → Option β
  | [] => none
  | (k', v) :: rest => if k' = k then some v else alistFind k rest

/-- `map[k] = v`: replace the binding of `k` in place, or append a fresh
binding when the key is absent. -/
def alistSet {β : Type} (k : String) (v : β) :
    List (String × β) → List (String × β)
  | [] => [(k, v)]
  | (k', v') :: rest =>
    if k' = k then (k, v) :: rest else (k', v') :: alistSet k v rest

/-- `f(map[k])` with default-construction of a missing entry, as the C++
`operator[]` does. -/
def alistModify {β : Type} (k : String) (d : β) (f : β → β)
    (l : List (String × β)) : List (String × β) :=
  alistSet k (f ((alistFind k l).getD d)) l

/-- `PubSubSystem` state (PubSub.h lines 181-200): config fields used by
the modelled operations, the running flag, the subscription id counter, and
the three per-topic maps.  A subscriber entry is its id paired with an
opaque handle for its type-erased callback (the dispatch behaviour of the
callback itself is modelled by `SubCallback.call`). -/
structure PubSubSystem where
  enable_statistics : Bool
  default_queue_size : Nat
  running : Bool
  next_subscription_id : Nat
  subscribers : List (String × List (Nat × Nat))
  topic_queues : List (String × MsgQueue)
  topic_stats : List (String × TopicStatistics)
deriving DecidableEq, Repr

/-- The `PubSubSystem(config)` constructor: maps empty, not running,
`next_subscription_id_` starts at 1 (PubSub.h line 188). -/
def mkPubSubSystem (enable_statistics : Bool) (default_queue_size : Nat) :
    PubSubSystem :=
  { enable_statistics := enable_statistics,
    default_queue_size := default_queue_size,
    running := false, next_subscription_id := 1,
    subscribers := [], topic_queues := [], topic_stats := [] }

/-- `PubSubSystem::subscribe` (PubSub.h lines 96-112): take a fresh id from
the counter, append the entry to the topic's subscriber list (created if
absent), bump the topic's `active_subscribers` statistic when statistics
are enabled; the running flag is never consulted. -/
def PubSubSystem.subscribe (s : PubSubSystem) (topic : String) (cb : Nat) :
    Nat × PubSubSystem :=
  let sub_id := s.next_subscription_id
  let subs := alistModify topic [] (fun l => l ++ [(sub_id, cb)]) s.subscribers
  let stats :=
    if s.enable_statistics then
      alistModify topic TopicStatistics.init
        (fun st => { st with active_subscribers := st.active_subscribers + 1 })
        s.topic_stats
    else s.topic_stats
  (sub_id,
    { s with next_subscription_id := sub_id + 1, subscribers := subs,
             topic_stats := stats })

/-- `PubSubSystem::unsubscribe` (PubSub.h lines 351-377): look the topic up,
erase the first entry carrying the id if present, decrement the topic's
`active_subscribers` statistic when statistics are enabled and a statistics
entry exists, and report whether a match was found. -/
def PubSubSystem.unsubscribe (s : PubSubSystem) (topic : String)
    (sub_id : Nat) : Bool × PubSubSystem :=
  match alistFind topic s.subscribers with
  | none => (false, s)
  | some l =>
    if l.any (fun e => e.1 = sub_id) then
      let l' := l.eraseP (fun e => e.1 = sub_id)
      let stats :=
        if s.enable_statistics then
          match alistFind topic s.topic_stats with
          | none => s.topic_stats
          | some st =>
            alistSet topic
              { st with active_subscribers := st.active_subscribers - 1 }
              s.topic_stats
        else s.topic_stats
      (true, { s with subscribers := alistSet topic l' s.subscribers,
                      topic_stats := stats })
    else (false, s)

/-- `PubSubSystem::getOrCreateQueue` (PubSub.h lines 525-536): return the
topic's queue, creating one with capacity `default_queue_size` and
registering it when absent. -/
def PubSubSystem.getOrCreateQueue (s : PubSubSystem) (topic : String) :
    MsgQueue × PubSubSystem :=
  match alistFind topic s.topic_queues with
  | some q => (q, s)
  | none =>
    let q := mkMsgQueue s.default_queue_size
    (q, { s with topic_queues := alistSet topic q s.topic_queues })

/-- `PubSubSystem::publishMessage` (PubSub.h lines 379-394): reject when not
running; otherwise enqueue into the topic's (lazily created) queue and, on
success and with statistics enabled, bump the topic's published counter. -/
def PubSubSystem.publishMessage (s : PubSubSystem) (topic : String)
    (message : Option BaseMsg) (now : Int) : Bool × PubSubSystem :=
  if !s.running then (false, s)
  else
    let qs := s.getOrCreateQueue topic
    let eq := qs.1.enqueue message now
    let s2 := { qs.2 with topic_queues := alistSet topic eq.2 qs.2.topic_queues }
    if eq.1 then
      let s3 :=
        if s.enable_statistics then
          { s2 with
            topic_stats := alistModify topic TopicStatistics.init
              (fun st => { st with messages_published := st.messages_published + 1 }) s2.topic_stats }
        else s2
      (true, s3)
    else (false, s2)

/-- `make_msg<T>(priority, content)`: a fresh `Msg<T>` — sequence id drawn
from the process-wide counter (here an explicit argument), timestamp still
unset (assigned later by `enqueue`). -/
def make_msg (priority : Int) (ty_tag : Nat) (content : Int)
    (msg_id : Nat) : BaseMsg :=
  { priority := priority, timestamp := 0, msg_id := msg_id,
    ty_tag := ty_tag, content := content }

/-- `PubSubSystem::publish` (PubSub.h lines 127-135): reject when not
running, otherwise build the message and hand it to `publishMessage`. -/
def PubSubSystem.publish (s : PubSubSystem) (topic : String) (priority : Int)
    (ty_tag : Nat) (content : Int) (msg_id : Nat) (now : Int) :
    Bool × PubSubSystem :=
  if !s.running then (false, s)
  else s.publishMessage topic (some (make_msg priority ty_tag content msg_id)) now

/-- `PubSubSystem::getTopicNames` (PubSub.h lines 405-413): the keys of the
`subscribers_` map. -/
def PubSubSystem.getTopicNames (s : PubSubSystem) : List String :=
  s.subscribers.map Prod.fst

/-- `PubSubSystem::getSubscriberCount` (PubSub.h lines 415-419). -/
def PubSubSystem.getSubscriberCount (s : PubSubSystem) (topic : String) : Nat :=
  match alistFind topic s.subscribers with
  | some l => l.length
  | none => 0

/-- `PubSubSystem::getTopicStatistics` (PubSub.h lines 396-403). -/
def PubSubSystem.getTopicStatistics (s : PubSubSystem) (topic : String) :
    TopicStatistics :=
  (alistFind topic s.topic_stats).getD TopicStatistics.init

/-- `PubSubSystem::clear` (PubSub.h lines 421-428). -/
def PubSubSystem.clear (s : PubSubSystem) : PubSubSystem :=
  { s with subscribers := [], topic_queues := [], topic_stats := [] }

theorem alistFind_set_self {β : Type} (k : String) (v : β)
    (l : List (String × β)) : alistFind k (alistSet k v l) = some v := by
  induction l with
  | nil => simp [alistSet, alistFind]
  | cons p rest ih =>
    by_cases hk : p.1 = k
    · simp [alistSet, alistFind, hk]
    · simp [alistSet, alistFind, hk, ih]

theorem alistFind_set_ne {β : Type} {k u : String} (v : β)
    (l : List (String × β)) (h : u ≠ k) :
    alistFind u (alistSet k v l) = alistFind u l := by
  have h' : ¬ k = u := fun hc => h hc.symm
  induction l with
  | nil => simp [alistSet, alistFind, h']
  | cons p rest ih =>
    by_cases hk : p.1 = k
    · simp [alistSet, alistFind, hk, h']
    · simp [alistSet, alistFind, hk, ih]

theorem alistSet_set {β : Type} (k : String) (v w : β)
    (l : List (String × β)) :
    alistSet k v (alistSet k w l) = alistSet k v l := by
  induction l with
  | nil => simp [alistSet]
  | cons p rest ih =>
    by_cases hk : p.1 = k
    · simp [alistSet, hk]
    · simp [alistSet, hk, ih]

theorem mem_alistSet {β : Type} {k : String} {v : β} {l : List (String × β)}
    {p : String × β} (h : p ∈ alistSet k v l) : p = (k, v) ∨ p ∈ l := by
  induction l with
  | nil => simpa [alistSet] using h
  | cons q rest ih =>
    by_cases hk : q.1 = k
    · rw [alistSet, if_pos hk] at h
      rcases List.mem_cons.mp h with rfl | h
      · exact Or.inl rfl
      · exact Or.inr (List.mem_cons_of_mem q h)
    · rw [alistSet, if_neg hk] at h
      rcases List.mem_cons.mp h with rfl | h
      · exact Or.inr (List.mem_cons_self q rest)
      · rcases ih h with h | h
        · exact Or.inl h
        · exact Or.inr (List.mem_cons_of_mem q h)

theorem alistFind_mem {β : Type} {k : String} {v : β} :
    ∀ {l : List (String × β)}, alistFind k l = some v → (k, v) ∈ l := by
  intro l
  induction l with
  | nil => intro h; simp [alistFind] at h
  | cons p rest ih =>
    intro h
    obtain ⟨p1, p2⟩ := p
    by_cases hk : p1 = k
    · subst hk
      simp [alistFind] at h
      subst h
      exact List.mem_cons_self _ _
    · simp [alistFind, hk] at h
      exact List.mem_cons_of_mem _ (ih h)

theorem getOrCreateQueue_frame (s : PubSubSystem) (t : String) :
    (s.getOrCreateQueue t).2.subscribers = s.subscribers
    ∧ (s.getOrCreateQueue t).2.topic_stats = s.topic_stats
    ∧ (s.getOrCreateQueue t).2.running = s.running
    ∧ (s.getOrCreateQueue t).2.enable_statistics = s.enable_statistics := by
  unfold PubSubSystem.getOrCreateQueue
  rcases h : alistFind t s.topic_queues with - | q <;> simp [h]

theorem publish_subscribers_eq (s : PubSubSystem) (t : String)
    (prio : Int) (tag : Nat) (content : Int) (mid : Nat) (now : Int) :
    (s.publish t prio tag content mid now).2.subscribers = s.subscribers := by
  unfold PubSubSystem.publish PubSubSystem.publishMessage
  obtain ⟨hf1, -, -, -⟩ := getOrCreateQueue_frame s t
  by_cases hr : s.running = true
  · simp only [hr, Bool.not_true, Bool.false_eq_true, if_false]
    by_cases he : ((s.getOrCreateQueue t).1.enqueue
        (some (make_msg prio tag content mid)) now).1 = true <;>
      by_cases hstat : s.enable_statistics = true <;>
      simp [he, hstat, hf1]
  · simp [Bool.eq_false_iff.mpr hr]

/-- C4 (amended): `publish` on a non-running router returns false and
changes nothing; on a running router it enqueues a message built from the
given priority and payload into the topic's lazily created queue, returns
the enqueue result, leaves the subscriber map alone, and — when the
router's config has statistics enabled (the default) — increments the
topic's `messages_published` count on a successful enqueue (on a failed
enqueue the statistics are untouched). -/
theorem c4_publish (s : PubSubSystem) (t : String) (prio : Int)
    (tag : Nat) (content : Int) (mid : Nat) (now : Int) :
    (s.running = false →
        s.publish t prio tag content mid now = (false, s))
    ∧ (s.running = true →
        (s.publish t prio tag content mid now).1
            = ((s.getOrCreateQueue t).1.enqueue
                (some (make_msg prio tag content mid)) now).1
        ∧ alistFind t (s.publish t prio tag content mid now).2.topic_queues
            = some ((s.getOrCreateQueue t).1.enqueue
                (some (make_msg prio tag content mid)) now).2
        ∧ (s.publish t prio tag content mid now).2.subscribers = s.subscribers
        ∧ (((s.getOrCreateQueue t).1.enqueue
              (some (make_msg prio tag content mid)) now).1 = false →
            (s.publish t prio tag content mid now).2.topic_stats
              = s.topic_stats)
        ∧ (((s.getOrCreateQueue t).1.enqueue
              (some (make_msg prio tag content mid)) now).1 = true →
            s.enable_statistics = true →
            ((s.publish t prio tag content mid now).2.getTopicStatistics
                t).messages_published
              = (s.getTopicStatistics t).messages_published + 1)) := by
  constructor
  · intro hr
    simp [PubSubSystem.publish, hr]
  · intro hr
    obtain ⟨hf1, hf2, -, -⟩ := getOrCreateQueue_frame s t
    unfold PubSubSystem.publish PubSubSystem.publishMessage
    simp only [hr, Bool.not_true, Bool.false_eq_true, if_false]
    by_cases he : ((s.getOrCreateQueue t).1.enqueue
        (some (make_msg prio tag content mid)) now).1 = true
    · by_cases hstat : s.enable_statistics = true <;>
        simp [he, hstat, alistFind_set_self, hf1, hf2,
          PubSubSystem.getTopicStatistics, alistModify]
    · simp [Bool.eq_false_iff.mpr he, he, alistFind_set_self, hf1, hf2]

/-- A running router whose config disables statistics. -/
def routerNoStats : PubSubSystem :=
  { mkPubSubSystem false 8 with running := true }

/-- C4 counterexample: on a running router configured with
`enable_statistics = false`, a successful `publish` does not increment the
topic's `messages_published` count, contradicting the claim's unconditional
"on successful enqueue increments that topic's messages_published count". -/
theorem c4_counterexample :
    (routerNoStats.publish "t" 0 0 0 0 0).1 = true
    ∧ ((routerNoStats.publish "t" 0 0 0 0 0).2.getTopicStatistics
        "t").messages_published = 0 := by
  constructor <;> rfl

/-- A running router with statistics enabled, used to instantiate the
amended publish theorem. -/
def routerStats : PubSubSystem :=
  { mkPubSubSystem true 8 with running := true }

theorem c4_witness :
    (routerStats.publish "t" 3 1 42 5 9).1
        = ((routerStats.getOrCreateQueue "t").1.enqueue
            (some (make_msg 3 1 42 5)) 9).1
    ∧ alistFind "t" (routerStats.publish "t" 3 1 42 5 9).2.topic_queues
        = some ((routerStats.getOrCreateQueue "t").1.enqueue
            (some (make_msg 3 1 42 5)) 9).2
    ∧ (routerStats.publish "t" 3 1 42 5 9).2.subscribers
        = routerStats.subscribers
    ∧ ((routerStats.publish "t" 3 1 42 5 9).2.getTopicStatistics
        "t").messages_published
        = (routerStats.getTopicStatistics "t").messages_published + 1 := by
  obtain ⟨h1, h2, h3, -, h5⟩ :=
    (c4_publish routerStats "t" 3 1 42 5 9).2 rfl
  exact ⟨h1, h2, h3, h5 rfl rfl⟩

/-- C10 (amended): `subscribe` never fails and never consults the running
state: on any router state — running or stopped — it returns the current
value of the id counter (so ids are fresh and strictly increasing), bumps
the counter, appends the new entry to the topic's subscriber list, and
increments the topic's `active_subscribers` statistic when the router's
config has statistics enabled (the default). -/
theorem c10_subscribe (s : PubSubSystem) (t : String) (cb : Nat) :
    (s.subscribe t cb).1 = s.next_subscription_id
    ∧ (s.subscribe t cb).2.next_subscription_id = s.next_subscription_id + 1
    ∧ alistFind t (s.subscribe t cb).2.subscribers
        = some (((alistFind t s.subscribers).getD [])
            ++ [((s.subscribe t cb).1, cb)])
    ∧ (s.subscribe t cb).2.running = s.running
    ∧ (s.enable_statistics = true →
        ((s.subscribe t cb).2.getTopicStatistics t).active_subscribers
          = (s.getTopicStatistics t).active_subscribers + 1) := by
  refine ⟨rfl, rfl, ?_, rfl, ?_⟩
  · simp [PubSubSystem.subscribe, alistModify, alistFind_set_self]
  · intro hstat
    simp [PubSubSystem.subscribe, hstat, alistModify, alistFind_set_self,
      PubSubSystem.getTopicStatistics]

/-- A stopped router with statistics disabled. -/
def routerStoppedNoStats : PubSubSystem := mkPubSubSystem false 8

/-- C10 counterexample: with `enable_statistics = false` the subscription is
registered (the subscriber count becomes 1) but the topic's
`active_subscribers` statistic is not incremented, contradicting the
claim's unconditional "increments the topic's active-subscriber
statistic". -/
theorem c10_counterexample :
    (routerStoppedNoStats.subscribe "t" 5).2.getSubscriberCount "t" = 1
    ∧ ((routerStoppedNoStats.subscribe "t" 5).2.getTopicStatistics
        "t").active_subscribers = 0 := by
  constructor <;> rfl

/-- A stopped router with statistics enabled, showing `subscribe` succeeds
without the router running. -/
def routerStoppedStats : PubSubSystem := mkPubSubSystem true 8

theorem c10_witness :
    (routerStoppedStats.subscribe "t" 5).1
        = routerStoppedStats.next_subscription_id
    ∧ (routerStoppedStats.subscribe "t" 5).2.next_subscription_id
        = routerStoppedStats.next_subscription_id + 1
    ∧ alistFind "t" (routerStoppedStats.subscribe "t" 5).2.subscribers
        = some (((alistFind "t" routerStoppedStats.subscribers).getD [])
            ++ [((routerStoppedStats.subscribe "t" 5).1, 5)])
    ∧ (routerStoppedStats.subscribe "t" 5).2.running
        = routerStoppedStats.running
    ∧ ((routerStoppedStats.subscribe "t" 5).2.getTopicStatistics
        "t").active_subscribers
        = (routerStoppedStats.getTopicStatistics "t").active_subscribers
          + 1 := by
  obtain ⟨h1, h2, h3, h4, h5⟩ := c10_subscribe routerStoppedStats "t" 5
  exact ⟨h1, h2, h3, h4, h5 rfl⟩

theorem alistFind_set_isSome {β : Type} {u k : String} (v : β)
    {l : List (String × β)} (h : (alistFind u l).isSome = true) :
    (alistFind u (alistSet k v l)).isSome = true := by
  by_cases hk : u = k
  · subst hk
    simp [alistFind_set_self]
  · rw [alistFind_set_ne v l hk]
    exact h

theorem getOrCreateQueue_queues (s : PubSubSystem) (t : String) :
    (s.getOrCreateQueue t).2.topic_queues = s.topic_queues
    ∨ (s.getOrCreateQueue t).2.topic_queues
        = alistSet t (mkMsgQueue s.default_queue_size) s.topic_queues := by
  unfold PubSubSystem.getOrCreateQueue
  rcases h : alistFind t s.topic_queues with - | q <;> simp [h]

theorem publishMessage_queues_eq (s : PubSubSystem) (t : String)
    (msg : Option BaseMsg) (now : Int) (hr : s.running = true) :
    (s.publishMessage t msg now).2.topic_queues
      = alistSet t ((s.getOrCreateQueue t).1.enqueue msg now).2
          ((s.getOrCreateQueue t).2.topic_queues) := by
  unfold PubSubSystem.publishMessage
  simp only [hr, Bool.not_true, Bool.false_eq_true, if_false]
  by_cases he : ((s.getOrCreateQueue t).1.enqueue msg now).1 = true <;>
    by_cases hstat : s.enable_statistics = true <;>
    simp [he, hstat]

theorem publish_preserves_queue (s : PubSubSystem) (t : String) (prio : Int)
    (tag : Nat) (content : Int) (mid : Nat) (now : Int) (u : String)
    (h : (alistFind u s.topic_queues).isSome = true) :
    (alistFind u
        (s.publish t prio tag content mid now).2.topic_queues).isSome
      = true := by
  unfold PubSubSystem.publish
  by_cases hr : s.running = true
  · simp only [hr, Bool.not_true, Bool.false_eq_true, if_false]
    rw [publishMessage_queues_eq s t _ now hr]
    rcases getOrCreateQueue_queues s t with hq | hq <;> rw [hq]
    · exact alistFind_set_isSome _ h
    · exact alistFind_set_isSome _ (alistFind_set_isSome _ h)
  · simp only [Bool.eq_false_iff.mpr hr]
    simpa using h

theorem unsubscribe_queues (s : PubSubSystem) (t : String) (i : Nat) :
    (s.unsubscribe t i).2.topic_queues = s.topic_queues := by
  unfold PubSubSystem.unsubscribe
  rcases h : alistFind t s.subscribers with - | l
  · rfl
  · by_cases ha : l.any (fun e => e.1 = i) <;> simp [ha]

/-- The router operations other than `clear` (the claim's persistence is
stated up to the next `clear`). -/
inductive PubSubOp where
  | pub (topic : String) (priority : Int) (tag : Nat) (content : Int)
      (msg_id : Nat) (now : Int)
  | sub (topic : String) (cb : Nat)
  | unsub (topic : String) (sub_id : Nat)
deriving DecidableEq, Repr

def runPubSub (s : PubSubSystem) : List PubSubOp → PubSubSystem
  | [] => s
  | PubSubOp.pub t p tg c i n :: rest =>
    runPubSub (s.publish t p tg c i n).2 rest
  | PubSubOp.sub t cb :: rest => runPubSub (s.subscribe t cb).2 rest
  | PubSubOp.unsub t i :: rest => runPubSub (s.unsubscribe t i).2 rest

theorem runPubSub_preserves_queue (ops : List PubSubOp) :
    ∀ (s : PubSubSystem) (u : String),
      (alistFind u s.topic_queues).isSome = true →
      (alistFind u (runPubSub s ops).topic_queues).isSome = true := by
  induction ops with
  | nil => intro s u h; exact h
  | cons op rest ih =>
    intro s u h
    match op with
    | PubSubOp.pub t p tg c i n =>
      exact ih _ u (publish_preserves_queue s t p tg c i n u h)
    | PubSubOp.sub t cb => exact ih _ u h
    | PubSubOp.unsub t i =>
      exact ih _ u (by rw [unsubscribe_queues]; exact h)

/-- C9 (amended): a `publish` to topic t on a running router creates t's
topic-queue entry, and that entry persists across any further
publish/subscribe/unsubscribe activity (only `clear` or destruction drops
it); however `getTopicNames` lists the keys of the subscriber map only, and
`publish` never touches that map, so the publish alone — without a
`subscribe` for t — does not make t appear in `list_topics`. -/
theorem c9_topic_persistence (s : PubSubSystem) (t : String) (prio : Int)
    (tag : Nat) (content : Int) (mid : Nat) (now : Int)
    (ops : List PubSubOp) (hr : s.running = true) :
    (alistFind t
        (s.publish t prio tag content mid now).2.topic_queues).isSome = true
    ∧ (∀ s0 : PubSubSystem, (alistFind t s0.topic_queues).isSome = true →
        (alistFind t (runPubSub s0 ops).topic_queues).isSome = true)
    ∧ (s.publish t prio tag content mid now).2.getTopicNames
        = s.getTopicNames := by
  refine ⟨?_, fun s0 h => runPubSub_preserves_queue ops s0 t h, ?_⟩
  · unfold PubSubSystem.publish
    simp only [hr, Bool.not_true, Bool.false_eq_true, if_false]
    rw [publishMessage_queues_eq s t _ now hr]
    simp [alistFind_set_self]
  · unfold PubSubSystem.getTopicNames
    rw [publish_subscribers_eq]

/-- A fresh running router with statistics enabled. -/
def routerC9 : PubSubSystem :=
  { mkPubSubSystem true 8 with running := true }

/-- C9 counterexample: on a fresh running router, `publish("t", ...)`
succeeds — creating t's topic queue — yet `getTopicNames` (list_topics)
does not contain "t", because `getTopicNames` lists only the keys of the
subscriber map and `publish` never creates a subscriber entry. -/
theorem c9_counterexample :
    (routerC9.publish "t" 0 0 0 0 0).1 = true
    ∧ "t" ∉ (routerC9.publish "t" 0 0 0 0 0).2.getTopicNames := by
  refine ⟨rfl, ?_⟩
  unfold PubSubSystem.getTopicNames
  rw [publish_subscribers_eq]
  simp [routerC9, mkPubSubSystem]

theorem c9_witness :
    (alistFind "t"
        (routerC9.publish "t" 1 0 7 2 3).2.topic_queues).isSome = true
    ∧ (∀ s0 : PubSubSystem, (alistFind "t" s0.topic_queues).isSome = true →
        (alistFind "t"
            (runPubSub s0 [PubSubOp.sub "u" 1,
              PubSubOp.pub "v" 0 0 0 4 5]).topic_queues).isSome = true)
    ∧ (routerC9.publish "t" 1 0 7 2 3).2.getTopicNames
        = routerC9.getTopicNames :=
  c9_topic_persistence routerC9 "t" 1 0 7 2 3
    [PubSubOp.sub "u" 1, PubSubOp.pub "v" 0 0 0 4 5] rfl

/-- All subscription ids currently stored are below the id counter — true
of every reachable router state, since `subscribe` hands out the counter's
value and increments it. -/
def subIdsBelow (n : Nat) (subs : List (String × List (Nat × Nat))) : Prop :=
  ∀ p ∈ subs, ∀ e ∈ p.2, e.1 < n

theorem unsubscribe_no_match (s' : PubSubSystem) (u : String) (i : Nat)
    (h : ∀ p ∈ s'.subscribers, ∀ e ∈ p.2, e.1 ≠ i) :
    s'.unsubscribe u i = (false, s') := by
  unfold PubSubSystem.unsubscribe
  rcases hf : alistFind u s'.subscribers with - | l
  · rfl
  · have hl : l.any (fun e => e.1 = i) = false := by
      rw [List.any_eq_false]
      intro e he
      simpa using h (u, l) (alistFind_mem hf) e he
    simp [hl]

/-- C6: a subscription id is valid for unsubscription exactly once and only
under its own topic.  Starting from any router state whose stored ids are
below the id counter (true of every reachable state), after
`subscribe(t, cb)` returns id: the first `unsubscribe(t, id)` returns true
and drops exactly that subscription (the topic's subscriber count goes back
down by one); afterwards `unsubscribe(u, id)` returns false for every topic
u and changes nothing; and `unsubscribe(u, id)` under any topic `u ≠ t`
returns false and changes nothing. -/
theorem c6_unsubscribe_once (s : PubSubSystem) (t : String) (cb : Nat)
    (h : subIdsBelow s.next_subscription_id s.subscribers) :
    ((s.subscribe t cb).2.unsubscribe t (s.subscribe t cb).1).1 = true
    ∧ ((s.subscribe t cb).2.unsubscribe t
          (s.subscribe t cb).1).2.getSubscriberCount t + 1
        = (s.subscribe t cb).2.getSubscriberCount t
    ∧ (∀ u : String,
        ((s.subscribe t cb).2.unsubscribe t
            (s.subscribe t cb).1).2.unsubscribe u (s.subscribe t cb).1
          = (false,
            ((s.subscribe t cb).2.unsubscribe t (s.subscribe t cb).1).2))
    ∧ (∀ u : String, u ≠ t →
        (s.subscribe t cb).2.unsubscribe u (s.subscribe t cb).1
          = (false, (s.subscribe t cb).2)) := by
  have hid : (s.subscribe t cb).1 = s.next_subscription_id := rfl
  have hs1subs : (s.subscribe t cb).2.subscribers
      = alistSet t (((alistFind t s.subscribers).getD [])
          ++ [(s.next_subscription_id, cb)]) s.subscribers := rfl
  have hold : ∀ e ∈ (alistFind t s.subscribers).getD [],
      e.1 < s.next_subscription_id := by
    rcases hf : alistFind t s.subscribers with - | l
    · simp
    · intro e he
      exact h (t, l) (alistFind_mem hf) e (by simpa using he)
  have hfind1 : alistFind t (s.subscribe t cb).2.subscribers
      = some (((alistFind t s.subscribers).getD [])
          ++ [(s.next_subscription_id, cb)]) := by
    rw [hs1subs]
    exact alistFind_set_self _ _ _
  have hany : (((alistFind t s.subscribers).getD [])
      ++ [(s.next_subscription_id, cb)]).any
        (fun e => e.1 = s.next_subscription_id) = true := by
    simp
  have herase : (((alistFind t s.subscribers).getD [])
      ++ [(s.next_subscription_id, cb)]).eraseP
        (fun e => e.1 = s.next_subscription_id)
      = (alistFind t s.subscribers).getD [] := by
    rw [List.eraseP_append_right]
    · simp
    · intro b hb
      have := hold b hb
      simp
      omega
  have hB : ((s.subscribe t cb).2.unsubscribe t (s.subscribe t cb).1).1 = true
      ∧ ((s.subscribe t cb).2.unsubscribe t
          (s.subscribe t cb).1).2.subscribers
        = alistSet t ((alistFind t s.subscribers).getD [])
            (s.subscribe t cb).2.subscribers := by
    rw [hid]
    unfold PubSubSystem.unsubscribe
    rw [hfind1]
    simp only [hany, if_true]
    simp [herase]
  obtain ⟨hB1, hB2⟩ := hB
  have hs2subs : ((s.subscribe t cb).2.unsubscribe t
      (s.subscribe t cb).1).2.subscribers
      = alistSet t ((alistFind t s.subscribers).getD []) s.subscribers := by
    rw [hB2, hs1subs, alistSet_set]
  refine ⟨hB1, ?_, ?_, ?_⟩
  · unfold PubSubSystem.getSubscriberCount
    rw [hs2subs, alistFind_set_self, hfind1]
    simp
  · intro u
    rw [hid]
    refine unsubscribe_no_match _ u s.next_subscription_id ?_
    intro p hp e he
    rw [← hid, hs2subs] at hp
    rcases mem_alistSet hp with rfl | hp
    · have := hold e he
      omega
    · have := h p hp e he
      omega
  · intro u hu
    rw [hid]
    have hfu : alistFind u (s.subscribe t cb).2.subscribers
        = alistFind u s.subscribers := by
      rw [hs1subs]
      exact alistFind_set_ne _ _ hu
    unfold PubSubSystem.unsubscribe
    rw [hfu]
    rcases hf : alistFind u s.subscribers with - | l
    · rfl
    · have hl : l.any (fun e => e.1 = s.next_subscription_id) = false := by
        rw [List.any_eq_false]
        intro e he
        have := h (u, l) (alistFind_mem hf) e he
        simp
        omega
      simp [hl]

/-- A fresh router used to instantiate the subscription-lifecycle theorem. -/
def routerC6 : PubSubSystem := mkPubSubSystem true 4

theorem c6_witness :
    ((routerC6.subscribe "a" 7).2.unsubscribe "a"
        (routerC6.subscribe "a" 7).1).1 = true
    ∧ ((routerC6.subscribe "a" 7).2.unsubscribe "a"
          (routerC6.subscribe "a" 7).1).2.getSubscriberCount "a" + 1
        = (routerC6.subscribe "a" 7).2.getSubscriberCount "a"
    ∧ (∀ u : String,
        ((routerC6.subscribe "a" 7).2.unsubscribe "a"
            (routerC6.subscribe "a" 7).1).2.unsubscribe u
              (routerC6.subscribe "a" 7).1
          = (false,
            ((routerC6.subscribe "a" 7).2.unsubscribe "a"
                (routerC6.subscribe "a" 7).1).2))
    ∧ (∀ u : String, u ≠ "a" →
        (routerC6.subscribe "a" 7).2.unsubscribe u
            (routerC6.subscribe "a" 7).1
          = (false, (routerC6.subscribe "a" 7).2)) :=
  c6_unsubscribe_once routerC6 "a" 7
    (fun p hp => absurd hp (List.not_mem_nil p))
